/-
Verification of the incremental similarity clusterer of the ai-reviewer
repository.

The embedded code:
  * `cosineSimilarity` — from `src/utils.js` (mirrored in `src/generator.js`,
    lines 167–187): dot product over a single index loop, sum-of-squares
    norms, an explicit length check that throws, and a zero-norm guard
    returning 0.  JS numbers are modelled as exact reals; the thrown
    `Error` is modelled as `Except.error` carrying the message string.
  * `performClustering` — from the clusterer module (`src/processor`…,
    lines 118–181): a single greedy pass over the comments that have an
    embedding, first-fit scan over existing clusters in ascending id order
    (ids are `i + 1` for `i` an index into the `clusters` array, hence
    `List.range' 1 clusters.length`), membership recomputed by filtering
    the accumulated output on `clusterId`, short-circuiting on the first
    member whose similarity reaches the threshold; afterwards each comment
    without an embedding is appended in a fresh singleton cluster with the
    error marker "No embedding available".

The JS `for`/`break` loops are factored into structurally recursive
functions (`scanMembers` for the inner member loop, `findFirstCluster` for
the cluster loop, `clusterFold` for the outer comment loop,
`addMissingStep` for the trailing loop); each models exactly one loop of
the source.  Comment records are modelled by a structure whose `meta`
field stands for every remaining JS object field carried along by the
spread operator `{...comment}`.
-/
import Mathlib

namespace Clustering

/-- A comment record as handled by the clusterer.  `id`, `text` and
`embedding` come from upstream; `clusterId`, `similarityScore` and
`clusteringError` are the annotations added by the clusterer; `meta`
stands for all the remaining fields of the JS object (sentiment, category,
…) that the spread operator copies untouched. -/
@[ext] structure Comment (μ : Type) where
  id : String
  text : String
  embedding : Option (List ℝ)
  clusterId : Option Nat
  similarityScore : Option ℝ
  clusteringError : Option String
  meta : μ

/-- The single loop of `cosineSimilarity` accumulating
`(dotProduct, normA, normB)`; as in the JS loop the traversal is pairwise
and stops at the shorter list (the lengths are checked equal before the
loop runs). -/
def simSums : List ℝ → List ℝ → ℝ × ℝ × ℝ
  | a :: as, b :: bs =>
    let r := simSums as bs
    (a * b + r.1, a * a + r.2.1, b * b + r.2.2)
  | _, _ => (0, 0, 0)

/-- `cosineSimilarity(vecA, vecB)` from `src/utils.js`: throws when the
lengths differ, returns 0 when either norm is zero, otherwise the dot
product divided by the product of the Euclidean norms. -/
noncomputable def cosineSimilarity (vecA vecB : List ℝ) : Except String ℝ :=
  if vecA.length ≠ vecB.length then
    .error "Vectors must have the same length"
  else
    let r := simSums vecA vecB
    if r.2.1 = 0 ∨ r.2.2 = 0 then .ok 0
    else .ok (r.1 / (Real.sqrt r.2.1 * Real.sqrt r.2.2))

/-- The inner loop of `performClustering`: scan the members of one cluster
in assignment order, returning the similarity of the first member whose
similarity to the candidate reaches the threshold (`similarity >=
similarityThreshold`, so equality counts).  A member without an embedding
would make the JS crash inside `cosineSimilarity`; this is modelled as an
error (it never happens on the reachable states). -/
noncomputable def scanMembers (t : ℝ) (e : List ℝ) :
    List (Comment μ) → Except String (Option ℝ)
  | [] => .ok none
  | m :: ms =>
    match m.embedding with
    | none => .error "TypeError: undefined embedding"
    | some em =>
      match cosineSimilarity e em with
      | .error msg => .error msg
      | .ok s => if t ≤ s then .ok (some s) else scanMembers t e ms

/-- The cluster loop of `performClustering`: try the cluster ids in the
given order (the source iterates `i` over the indices of the `clusters`
array and uses `clusterId = i + 1`), recomputing each cluster's member
list by filtering the accumulated output, and stop at the first cluster
owning a qualifying member. -/
noncomputable def findFirstCluster (t : ℝ) (e : List ℝ)
    (assigned : List (Comment μ)) : List Nat → Except String (Option (Nat × ℝ))
  | [] => .ok none
  | cid :: rest =>
    match scanMembers t e (assigned.filter fun c => c.clusterId == some cid) with
    | .error msg => .error msg
    | .ok (some s) => .ok (some (cid, s))
    | .ok none => findFirstCluster t e assigned rest

/-- One iteration of the outer loop of `performClustering` for a comment
with an embedding: join the first qualifying cluster, recording the
similarity that matched, or create a fresh cluster
(`clusters.length + 1`) recording the sentinel score `1.0`.  The state is
the pair (`clusters` array, `clusteredComments` array). -/
noncomputable def clusterStep (t : ℝ) (st : List Nat × List (Comment μ))
    (c : Comment μ) : Except String (List Nat × List (Comment μ)) :=
  match c.embedding with
  | none => .error "TypeError: undefined embedding"
  | some e =>
    match findFirstCluster t e st.2 (List.range' 1 st.1.length) with
    | .error msg => .error msg
    | .ok (some (cid, s)) =>
      .ok (st.1, st.2 ++ [{ c with clusterId := some cid, similarityScore := some s }])
    | .ok none =>
      .ok (st.1 ++ [st.1.length + 1],
           st.2 ++ [{ c with clusterId := some (st.1.length + 1),
                             similarityScore := some 1 }])

/-- The outer `for (const comment of validComments)` loop. -/
noncomputable def clusterFold (t : ℝ) (st : List Nat × List (Comment μ)) :
    List (Comment μ) → Except String (List Nat × List (Comment μ))
  | [] => .ok st
  | c :: cs =>
    match clusterStep t st c with
    | .error msg => .error msg
    | .ok st' => clusterFold t st' cs

/-- One iteration of the trailing loop over `commentsWithoutEmbeddings`:
a fresh singleton cluster and the error marker; `similarityScore` is not
touched. -/
def addMissingStep (st : List Nat × List (Comment μ)) (c : Comment μ) :
    List Nat × List (Comment μ) :=
  (st.1 ++ [st.1.length + 1],
   st.2 ++ [{ c with clusterId := some (st.1.length + 1),
                     clusteringError := some "No embedding available" }])

/-- `performClustering(commentsWithEmbeddings)` with the configured
similarity threshold made an explicit parameter `t`
(`config.processor.clustering.similarityThreshold`, default 0.75): filter
the comments that have an embedding, run the greedy first-fit pass, then
append every embedding-less comment in its own singleton cluster. -/
noncomputable def performClustering (t : ℝ) (comments : List (Comment μ)) :
    Except String (List (Comment μ)) :=
  match clusterFold t ([], []) (comments.filter fun c => c.embedding.isSome) with
  | .error msg => .error msg
  | .ok st =>
    .ok ((comments.filter fun c => !c.embedding.isSome).foldl addMissingStep st).2

/-- The default threshold from `config.processor.clustering`. -/
noncomputable def similarityThreshold : ℝ := 0.75

/-- Order of first appearance: `firstsAux acc l` appends to `acc` each
element of `l` not seen before.  `firsts l` lists the elements of `l` in
the order of their first occurrence; it is the formal reading of the
spec's "identifiers in non-decreasing order of first appearance". -/
def firstsAux [DecidableEq α] (acc : List α) : List α → List α
  | [] => acc
  | x :: l => firstsAux (if x ∈ acc then acc else acc ++ [x]) l

/-- Elements of a list in order of first appearance. -/
def firsts [DecidableEq α] (l : List α) : List α := firstsAux [] l

/-- Declarative form of the trailing loop: tag each record with the next
fresh cluster id and the error marker. -/
def tagFrom (k : Nat) : List (Comment μ) → List (Comment μ)
  | [] => []
  | w :: ws =>
    { w with clusterId := some (k + 1),
             clusteringError := some "No embedding available" } ::
      tagFrom (k + 1) ws

/-- Shorthand for a record annotated with a cluster assignment, used for
spelling out concrete runs. -/
def annot (c : Comment μ) (cid : Nat) (s : ℝ) : Comment μ :=
  { c with clusterId := some cid, similarityScore := some s }


/-- A concrete sample record (over trivial metadata) used to evaluate the
clusterer on closed inputs. -/
def mk2 (i : String) (e : Option (List ℝ)) : Comment Unit :=
  { id := i, text := i, embedding := e, clusterId := none,
    similarityScore := none, clusteringError := none, meta := () }


/-! ### Arithmetic lemmas about `simSums` and `cosineSimilarity` -/

theorem simSums_comm (a b : List ℝ) :
    simSums b a = ((simSums a b).1, (simSums a b).2.2, (simSums a b).2.1) := by
  induction a generalizing b with
  | nil => cases b <;> simp [simSums]
  | cons x xs ih =>
    cases b with
    | nil => simp [simSums]
    | cons y ys => simp [simSums, ih ys]; ring

theorem simSums_normA_nonneg (a b : List ℝ) : 0 ≤ (simSums a b).2.1 := by
  induction a generalizing b with
  | nil => cases b <;> simp [simSums]
  | cons x xs ih =>
    cases b with
    | nil => simp [simSums]
    | cons y ys =>
      simp only [simSums]
      exact add_nonneg (mul_self_nonneg x) (ih ys)

theorem simSums_normB_nonneg (a b : List ℝ) : 0 ≤ (simSums a b).2.2 := by
  have h := simSums_normA_nonneg b a
  rw [simSums_comm b a]
  simpa using h

theorem simSums_self (a : List ℝ) :
    simSums a a = ((a.map fun x => x * x).sum, (a.map fun x => x * x).sum,
      (a.map fun x => x * x).sum) := by
  induction a with
  | nil => simp [simSums]
  | cons x xs ih => simp [simSums, ih]

theorem simSums_cauchy (a b : List ℝ) :
    (simSums a b).1 ^ 2 ≤ (simSums a b).2.1 * (simSums a b).2.2 := by
  induction a generalizing b with
  | nil => cases b <;> simp [simSums]
  | cons x xs ih =>
    cases b with
    | nil => simp [simSums]
    | cons y ys =>
      have h := ih ys
      have hA := simSums_normA_nonneg xs ys
      have hB := simSums_normB_nonneg xs ys
      simp only [simSums]
      set d := (simSums xs ys).1 with hd
      set nA := (simSums xs ys).2.1 with hnA
      set nB := (simSums xs ys).2.2 with hnB
      rcases eq_or_lt_of_le hB with hB0 | hBpos
      · have hd0 : d = 0 := by nlinarith [sq_nonneg d]
        rw [hd0, ← hB0]
        nlinarith [mul_nonneg hA (mul_self_nonneg y)]
      · nlinarith [sq_nonneg (x * nB - y * d),
          mul_nonneg (add_nonneg (mul_self_nonneg y) hB) (sub_nonneg.mpr h),
          mul_pos hBpos hBpos]

theorem simSums_dot_eq (a b : List ℝ) :
    (simSums a b).1 = (List.zipWith (fun x y => x * y) a b).sum := by
  induction a generalizing b with
  | nil => cases b <;> simp [simSums]
  | cons x xs ih =>
    cases b with
    | nil => simp [simSums]
    | cons y ys => simp [simSums, ih ys]

theorem simSums_normA_eq (a b : List ℝ) (h : a.length = b.length) :
    (simSums a b).2.1 = (a.map fun x => x * x).sum := by
  induction a generalizing b with
  | nil => cases b <;> simp [simSums]
  | cons x xs ih =>
    cases b with
    | nil => simp at h
    | cons y ys =>
      simp only [List.length_cons, Nat.succ_inj] at h
      simp [simSums, ih ys h]

theorem simSums_normB_eq (a b : List ℝ) (h : a.length = b.length) :
    (simSums a b).2.2 = (b.map fun x => x * x).sum := by
  have h2 := simSums_normA_eq b a h.symm
  rw [simSums_comm b a]
  simpa using h2

theorem cosineSimilarity_comm (a b : List ℝ) :
    cosineSimilarity a b = cosineSimilarity b a := by
  unfold cosineSimilarity
  rw [simSums_comm a b]
  by_cases h : a.length = b.length
  · simp only [h, ne_eq, not_true_eq_false, if_false, ite_not]
    by_cases hz : (simSums a b).2.1 = 0 ∨ (simSums a b).2.2 = 0
    · rw [if_pos hz, if_pos (Or.symm hz)]
    · rw [if_neg hz, if_neg fun hc => hz (Or.symm hc)]
      rw [mul_comm]
  · rw [if_pos h, if_pos fun hc => h hc.symm]

theorem cosineSimilarity_ok_of_length (a b : List ℝ) (h : a.length = b.length) :
    ∃ v, cosineSimilarity a b = .ok v := by
  unfold cosineSimilarity
  rw [if_neg (by simp [h])]
  by_cases hz : (simSums a b).2.1 = 0 ∨ (simSums a b).2.2 = 0
  · exact ⟨0, by rw [if_pos hz]⟩
  · exact ⟨_, by rw [if_neg hz]⟩

theorem cosineSimilarity_error_of_ne (a b : List ℝ) (h : a.length ≠ b.length) :
    cosineSimilarity a b = .error "Vectors must have the same length" := by
  unfold cosineSimilarity
  rw [if_pos h]

theorem cosineSimilarity_ok_length (a b : List ℝ) (s : ℝ)
    (h : cosineSimilarity a b = .ok s) : a.length = b.length := by
  by_contra hne
  rw [cosineSimilarity_error_of_ne a b hne] at h
  exact absurd h (by simp)

theorem cosineSimilarity_le_one (a b : List ℝ) (s : ℝ)
    (h : cosineSimilarity a b = .ok s) : s ≤ 1 := by
  have hlen := cosineSimilarity_ok_length a b s h
  unfold cosineSimilarity at h
  rw [if_neg (by simp [hlen])] at h
  by_cases hz : (simSums a b).2.1 = 0 ∨ (simSums a b).2.2 = 0
  · rw [if_pos hz] at h
    simp only [Except.ok.injEq] at h
    rw [← h]; norm_num
  · rw [if_neg hz] at h
    simp only [Except.ok.injEq] at h
    push_neg at hz
    have hA : 0 < (simSums a b).2.1 :=
      lt_of_le_of_ne (simSums_normA_nonneg a b) (Ne.symm hz.1)
    have hB : 0 < (simSums a b).2.2 :=
      lt_of_le_of_ne (simSums_normB_nonneg a b) (Ne.symm hz.2)
    rw [← h]
    rw [div_le_one (by positivity)]
    calc (simSums a b).1 ≤ |(simSums a b).1| := le_abs_self _
      _ = Real.sqrt ((simSums a b).1 ^ 2) := (Real.sqrt_sq_eq_abs _).symm
      _ ≤ Real.sqrt ((simSums a b).2.1 * (simSums a b).2.2) :=
          Real.sqrt_le_sqrt (simSums_cauchy a b)
      _ = Real.sqrt (simSums a b).2.1 * Real.sqrt (simSums a b).2.2 :=
          Real.sqrt_mul hA.le _

theorem cosineSimilarity_self (a : List ℝ)
    (h : (a.map fun x => x * x).sum ≠ 0) : cosineSimilarity a a = .ok 1 := by
  unfold cosineSimilarity
  rw [if_neg (by simp)]
  rw [simSums_self a]
  simp only [h, or_self, if_false]
  rw [Real.mul_self_sqrt]
  · rw [div_self h]
  · have := simSums_normA_nonneg a a
    rwa [simSums_self a] at this

/-! ### Structural lemmas about the scanning loops -/

variable {μ : Type}

theorem scanMembers_ok_none (t : ℝ) (e : List ℝ) (ms : List (Comment μ))
    (h : scanMembers t e ms = .ok none) :
    ∀ m ∈ ms, ∃ em s, m.embedding = some em ∧
      cosineSimilarity e em = .ok s ∧ s < t := by
  induction ms with
  | nil => intro m hm; exact absurd hm (List.not_mem_nil m)
  | cons m ms ih =>
    intro x hx
    rw [scanMembers] at h
    cases hm : m.embedding with
    | none => simp only [hm] at h; exact absurd h (by simp)
    | some em =>
      simp only [hm] at h
      cases hcs : cosineSimilarity e em with
      | error msg => simp only [hcs] at h; exact absurd h (by simp)
      | ok s =>
        simp only [hcs] at h
        by_cases hts : t ≤ s
        · rw [if_pos hts] at h; exact absurd h (by simp)
        · rw [if_neg hts] at h
          rcases List.mem_cons.mp hx with rfl | hx'
          · exact ⟨em, s, hm, hcs, not_le.mp hts⟩
          · exact ih h x hx'

theorem scanMembers_ok_some (t : ℝ) (e : List ℝ) (ms : List (Comment μ)) (s : ℝ)
    (h : scanMembers t e ms = .ok (some s)) :
    ∃ pre m post, ms = pre ++ m :: post ∧
      (∀ x ∈ pre, ∃ ex sx, x.embedding = some ex ∧
        cosineSimilarity e ex = .ok sx ∧ sx < t) ∧
      ∃ em, m.embedding = some em ∧ cosineSimilarity e em = .ok s ∧ t ≤ s := by
  induction ms with
  | nil => rw [scanMembers] at h; exact absurd h (by simp)
  | cons m ms ih =>
    rw [scanMembers] at h
    cases hm : m.embedding with
    | none => simp only [hm] at h; exact absurd h (by simp)
    | some em =>
      simp only [hm] at h
      cases hcs : cosineSimilarity e em with
      | error msg => simp only [hcs] at h; exact absurd h (by simp)
      | ok s' =>
        simp only [hcs] at h
        by_cases hts : t ≤ s'
        · rw [if_pos hts] at h
          simp only [Except.ok.injEq, Option.some.injEq] at h
          subst h
          exact ⟨[], m, ms, rfl, by simp, em, hm, hcs, hts⟩
        · rw [if_neg hts] at h
          obtain ⟨pre, m', post, hsplit, hpre, hm'⟩ := ih h
          refine ⟨m :: pre, m', post, by simp [hsplit], ?_, hm'⟩
          intro x hx
          rcases List.mem_cons.mp hx with rfl | hx'
          · exact ⟨em, s', hm, hcs, not_le.mp hts⟩
          · exact hpre x hx'

theorem findFirstCluster_ok_none (t : ℝ) (e : List ℝ)
    (assigned : List (Comment μ)) (cids : List Nat)
    (h : findFirstCluster t e assigned cids = .ok none) :
    ∀ cid ∈ cids,
      scanMembers t e (assigned.filter fun c => c.clusterId == some cid) =
        .ok none := by
  induction cids with
  | nil => intro cid hcid; exact absurd hcid (List.not_mem_nil cid)
  | cons cid cids ih =>
    intro x hx
    rw [findFirstCluster] at h
    cases hscan : scanMembers t e (assigned.filter fun c => c.clusterId == some cid) with
    | error msg => rw [hscan] at h; exact absurd h (by simp)
    | ok r =>
      rw [hscan] at h
      cases r with
      | some s => exact absurd h (by simp)
      | none =>
        rcases List.mem_cons.mp hx with rfl | hx'
        · exact hscan
        · exact ih h x hx'

theorem findFirstCluster_ok_some (t : ℝ) (e : List ℝ)
    (assigned : List (Comment μ)) (cids : List Nat) (cid : Nat) (s : ℝ)
    (h : findFirstCluster t e assigned cids = .ok (some (cid, s))) :
    ∃ pre post, cids = pre ++ cid :: post ∧
      (∀ cid' ∈ pre,
        scanMembers t e (assigned.filter fun c => c.clusterId == some cid') =
          .ok none) ∧
      scanMembers t e (assigned.filter fun c => c.clusterId == some cid) =
        .ok (some s) := by
  induction cids with
  | nil => rw [findFirstCluster] at h; exact absurd h (by simp)
  | cons cid0 cids ih =>
    rw [findFirstCluster] at h
    cases hscan : scanMembers t e (assigned.filter fun c => c.clusterId == some cid0) with
    | error msg => rw [hscan] at h; exact absurd h (by simp)
    | ok r =>
      rw [hscan] at h
      cases r with
      | some s' =>
        simp only [Except.ok.injEq, Option.some.injEq, Prod.mk.injEq] at h
        obtain ⟨rfl, rfl⟩ := h
        exact ⟨[], cids, rfl, by simp, hscan⟩
      | none =>
        obtain ⟨pre, post, hsplit, hpre, hcid⟩ := ih h
        refine ⟨cid0 :: pre, post, by simp [hsplit], ?_, hcid⟩
        intro x hx
        rcases List.mem_cons.mp hx with rfl | hx'
        · exact hscan
        · exact hpre x hx'

/-- Overriding the clusterer's annotation fields twice with the same
values is the identity on the once-annotated record. -/
theorem annotJoin_idem (c : Comment μ) (x : Option Nat) (y : Option ℝ) :
    ({ ({ c with clusterId := x, similarityScore := y } : Comment μ) with
        clusterId := x, similarityScore := y } : Comment μ) =
      { c with clusterId := x, similarityScore := y } := rfl

/-- Same idempotence for the embedding-less annotation. -/
theorem annotMissing_idem (c : Comment μ) (x : Option Nat) (y : Option String) :
    ({ ({ c with clusterId := x, clusteringError := y } : Comment μ) with
        clusterId := x, clusteringError := y } : Comment μ) =
      { c with clusterId := x, clusteringError := y } := rfl

/-- Case analysis of a successful `clusterStep`: either the comment joined
the cluster found by `findFirstCluster`, or it founded a fresh one. -/
theorem clusterStep_ok_elim (t : ℝ) (cl : List Nat) (as : List (Comment μ))
    (c : Comment μ) (st' : List Nat × List (Comment μ))
    (h : clusterStep t (cl, as) c = .ok st') :
    ∃ e, c.embedding = some e ∧
      ((∃ cid s, findFirstCluster t e as (List.range' 1 cl.length) = .ok (some (cid, s)) ∧
          st' = (cl, as ++ [{ c with clusterId := some cid, similarityScore := some s }]))
       ∨ (findFirstCluster t e as (List.range' 1 cl.length) = .ok none ∧
          st' = (cl ++ [cl.length + 1],
                 as ++ [{ c with clusterId := some (cl.length + 1),
                                 similarityScore := some 1 }]))) := by
  rw [clusterStep] at h
  cases he : c.embedding with
  | none => simp only [he] at h; exact absurd h (by simp)
  | some e =>
    simp only [he] at h
    refine ⟨e, rfl, ?_⟩
    cases hf : findFirstCluster t e as (List.range' 1 cl.length) with
    | error msg => simp only [hf] at h; exact absurd h (by simp)
    | ok r =>
      cases r with
      | some p =>
        obtain ⟨cid, s⟩ := p
        simp only [hf, Except.ok.injEq] at h
        exact Or.inl ⟨cid, s, rfl, h.symm⟩
      | none =>
        simp only [hf, Except.ok.injEq] at h
        exact Or.inr ⟨rfl, h.symm⟩

/-- A successful step appends exactly one annotated record; feeding the
annotated record back through the same step reproduces the same state
(the decision only reads the embedding and the accumulated state, and
re-annotating with the same values is the identity). -/
theorem clusterStep_reprocess (t : ℝ) (cl : List Nat) (as : List (Comment μ))
    (c : Comment μ) (st' : List Nat × List (Comment μ))
    (h : clusterStep t (cl, as) c = .ok st') :
    ∃ cl2 a, st' = (cl2, as ++ [a]) ∧ clusterStep t (cl, as) a = .ok st' ∧
      a.id = c.id ∧ a.text = c.text ∧ a.embedding = c.embedding ∧
      a.meta = c.meta ∧ a.clusteringError = c.clusteringError ∧
      ∃ cid s, a.clusterId = some cid ∧ a.similarityScore = some s := by
  obtain ⟨e, he, hcase⟩ := clusterStep_ok_elim t cl as c st' h
  rcases hcase with ⟨cid, s, hf, rfl⟩ | ⟨hf, rfl⟩
  · refine ⟨cl, _, rfl, ?_, by simp, by simp, by simp [he], by simp, by simp,
      cid, s, by simp, by simp⟩
    rw [clusterStep]
    simp only [he, hf]
  · refine ⟨cl ++ [cl.length + 1], _, rfl, ?_, by simp, by simp, by simp [he],
      by simp, by simp, cl.length + 1, 1, by simp, by simp⟩
    rw [clusterStep]
    simp only [he, hf]

/-- The accumulated output only grows along the fold. -/
theorem clusterFold_extends (t : ℝ) (vs : List (Comment μ)) :
    ∀ cl as cl' as', clusterFold t (cl, as) vs = .ok (cl', as') →
      ∃ out, as' = as ++ out := by
  induction vs with
  | nil =>
    intro cl as cl' as' h
    rw [clusterFold] at h
    simp only [Except.ok.injEq, Prod.mk.injEq] at h
    exact ⟨[], by simp [h.2.symm]⟩
  | cons v vs ih =>
    intro cl as cl' as' h
    rw [clusterFold] at h
    cases hstep : clusterStep t (cl, as) v with
    | error msg => simp only [hstep] at h; exact absurd h (by simp)
    | ok st1 =>
      simp only [hstep] at h
      obtain ⟨cl2, a, hst1, -, -⟩ := clusterStep_reprocess t cl as v st1 hstep
      subst hst1
      obtain ⟨out2, hout2⟩ := ih cl2 (as ++ [a]) cl' as' h
      exact ⟨a :: out2, by simp [hout2]⟩

/-- Re-running the greedy pass on its own output from the same starting
state reproduces the same final state. -/
theorem clusterFold_reprocess (t : ℝ) (vs : List (Comment μ)) :
    ∀ cl as out cl', clusterFold t (cl, as) vs = .ok (cl', as ++ out) →
      clusterFold t (cl, as) out = .ok (cl', as ++ out) := by
  induction vs with
  | nil =>
    intro cl as out cl' h
    rw [clusterFold] at h
    simp only [Except.ok.injEq, Prod.mk.injEq] at h
    have hlen : out = [] := by
      have := congrArg List.length h.2
      simp only [List.length_append] at this
      exact List.eq_nil_of_length_eq_zero (by omega)
    subst hlen
    rw [clusterFold, List.append_nil, ← h.1]
  | cons v vs ih =>
    intro cl as out cl' h
    rw [clusterFold] at h
    cases hstep : clusterStep t (cl, as) v with
    | error msg => simp only [hstep] at h; exact absurd h (by simp)
    | ok st1 =>
      simp only [hstep] at h
      obtain ⟨cl2, a, hst1, hre, -⟩ := clusterStep_reprocess t cl as v st1 hstep
      subst hst1
      obtain ⟨out2, hout2⟩ := clusterFold_extends t vs cl2 (as ++ [a]) cl' _ h
      have hsplit : as ++ out = as ++ a :: out2 := by
        rw [hout2]; simp
      have hout : out = a :: out2 := List.append_cancel_left hsplit
      subst hout
      rw [clusterFold]
      simp only [hre]
      have hmid : as ++ a :: out2 = (as ++ [a]) ++ out2 := by simp
      rw [hmid] at h ⊢
      exact ih cl2 (as ++ [a]) out2 cl' h

/-! ### Lemmas about `firsts` -/

theorem firstsAux_append [DecidableEq α] (l1 l2 : List α) :
    ∀ acc, firstsAux acc (l1 ++ l2) = firstsAux (firstsAux acc l1) l2 := by
  induction l1 with
  | nil => intro acc; rw [firstsAux]; rfl
  | cons x l1 ih =>
    intro acc
    rw [List.cons_append, firstsAux, firstsAux, ih]

theorem firsts_append_single [DecidableEq α] (l : List α) (x : α) :
    firsts (l ++ [x]) =
      if x ∈ firsts l then firsts l else firsts l ++ [x] := by
  rw [firsts, firstsAux_append, firstsAux, firstsAux]
  rfl

/-! ### Invariants of the greedy pass -/

/-- The fold preserves well-formedness of the cluster array (it is always
`[1, …, k]`), keeps `firsts` of the assigned cluster ids equal to the
cluster array, and every assigned record carries a cluster id drawn from
the array. -/
theorem clusterFold_inv (t : ℝ) (vs : List (Comment μ)) :
    ∀ cl as cl' as', clusterFold t (cl, as) vs = .ok (cl', as') →
      cl = List.range' 1 cl.length →
      firsts (as.map fun y => y.clusterId) = cl.map some →
      (∀ y ∈ as, ∃ cid, y.clusterId = some cid ∧ cid ∈ cl) →
      (cl' = List.range' 1 cl'.length ∧
       firsts (as'.map fun y => y.clusterId) = cl'.map some ∧
       (∀ y ∈ as', ∃ cid, y.clusterId = some cid ∧ cid ∈ cl')) := by
  induction vs with
  | nil =>
    intro cl as cl' as' h hwf hfirsts hids
    rw [clusterFold] at h
    simp only [Except.ok.injEq, Prod.mk.injEq] at h
    obtain ⟨rfl, rfl⟩ := h
    exact ⟨hwf, hfirsts, hids⟩
  | cons v vs ih =>
    intro cl as cl' as' h hwf hfirsts hids
    rw [clusterFold] at h
    cases hstep : clusterStep t (cl, as) v with
    | error msg => simp only [hstep] at h; exact absurd h (by simp)
    | ok st1 =>
      simp only [hstep] at h
      obtain ⟨e, -, hcase⟩ := clusterStep_ok_elim t cl as v st1 hstep
      rcases hcase with ⟨cid, s, hfind, rfl⟩ | ⟨hfind, rfl⟩
      · -- joined an existing cluster
        have hcid_mem : cid ∈ cl := by
          obtain ⟨pre, post, hsplit, -, -⟩ :=
            findFirstCluster_ok_some t e as (List.range' 1 cl.length) cid s hfind
          have : cid ∈ List.range' 1 cl.length := by
            rw [hsplit]; exact List.mem_append_right pre (List.mem_cons_self _ _)
          rwa [← hwf] at this
        refine ih cl (as ++ [_]) cl' as' h hwf ?_ ?_
        · rw [List.map_append]
          simp only [List.map_cons, List.map_nil]
          rw [firsts_append_single, if_pos]
          · exact hfirsts
          · rw [hfirsts]
            simpa using List.mem_map_of_mem some hcid_mem
        · intro y hy
          rcases List.mem_append.mp hy with hy' | hy'
          · exact hids y hy'
          · simp only [List.mem_singleton] at hy'
            subst hy'
            exact ⟨cid, by simp, hcid_mem⟩
      · -- founded a fresh cluster
        have hnotmem : (cl.length + 1) ∉ cl := by
          intro hmem
          rw [hwf, List.mem_range'_1] at hmem
          simp only [List.length_range'] at hmem
          omega
        have hrange : List.range' 1 (cl.length + 1) = cl ++ [cl.length + 1] := by
          rw [List.range'_1_concat, ← hwf, Nat.add_comm 1 cl.length]
        have hwf' : cl ++ [cl.length + 1] =
            List.range' 1 (cl ++ [cl.length + 1]).length := by
          rw [List.length_append, List.length_singleton, hrange]
        refine ih (cl ++ [cl.length + 1]) (as ++ [_]) cl' as' h hwf' ?_ ?_
        · rw [List.map_append]
          simp only [List.map_cons, List.map_nil]
          rw [firsts_append_single, if_neg]
          · simp [hfirsts]
          · rw [hfirsts]
            intro hmem
            rw [List.mem_map] at hmem
            obtain ⟨x, hx, hxeq⟩ := hmem
            rw [Option.some_inj] at hxeq
            exact hnotmem (hxeq ▸ hx)
        · intro y hy
          rcases List.mem_append.mp hy with hy' | hy'
          · obtain ⟨cid, hcid, hmem⟩ := hids y hy'
            exact ⟨cid, hcid, List.mem_append_left _ hmem⟩
          · simp only [List.mem_singleton] at hy'
            subst hy'
            exact ⟨cl.length + 1, by simp,
              List.mem_append_right _ (List.mem_singleton_self _)⟩

/-- Frame lemma for the greedy pass: any projection of the record that is
unaffected by overriding `clusterId` and `similarityScore` is preserved
pointwise, and the pass appends exactly its input items. -/
theorem clusterFold_frame {β : Type} (F : Comment μ → β)
    (hF : ∀ (c : Comment μ) x y,
      F { c with clusterId := x, similarityScore := y } = F c)
    (t : ℝ) (vs : List (Comment μ)) :
    ∀ cl as cl' as', clusterFold t (cl, as) vs = .ok (cl', as') →
      ∃ out, as' = as ++ out ∧ out.map F = vs.map F := by
  induction vs with
  | nil =>
    intro cl as cl' as' h
    rw [clusterFold] at h
    simp only [Except.ok.injEq, Prod.mk.injEq] at h
    exact ⟨[], by simp [h.2.symm], by simp⟩
  | cons v vs ih =>
    intro cl as cl' as' h
    rw [clusterFold] at h
    cases hstep : clusterStep t (cl, as) v with
    | error msg => simp only [hstep] at h; exact absurd h (by simp)
    | ok st1 =>
      simp only [hstep] at h
      obtain ⟨e, -, hcase⟩ := clusterStep_ok_elim t cl as v st1 hstep
      rcases hcase with ⟨cid, s, -, rfl⟩ | ⟨-, rfl⟩
      · obtain ⟨out2, hout2, hmap⟩ := ih _ _ _ _ h
        refine ⟨{ v with clusterId := some cid, similarityScore := some s } :: out2,
          by simp [hout2], ?_⟩
        simp only [List.map_cons, hmap, hF]
      · obtain ⟨out2, hout2, hmap⟩ := ih _ _ _ _ h
        refine ⟨{ v with clusterId := some (cl.length + 1),
                         similarityScore := some 1 } :: out2,
          by simp [hout2], ?_⟩
        simp only [List.map_cons, hmap, hF]

/-! ### The trailing loop over embedding-less comments -/

theorem foldl_addMissing (ws : List (Comment μ)) :
    ∀ cl as, List.foldl addMissingStep (cl, as) ws =
      (cl ++ List.range' (cl.length + 1) ws.length, as ++ tagFrom cl.length ws) := by
  induction ws with
  | nil => intro cl as; simp [tagFrom]
  | cons w ws ih =>
    intro cl as
    rw [List.foldl_cons]
    rw [show addMissingStep (cl, as) w =
      (cl ++ [cl.length + 1],
       as ++ [{ w with clusterId := some (cl.length + 1),
                       clusteringError := some "No embedding available" }]) from rfl]
    rw [ih]
    simp only [Prod.mk.injEq]
    constructor
    · simp [List.range'_succ]
    · simp [tagFrom]

theorem tagFrom_length (ws : List (Comment μ)) :
    ∀ k, (tagFrom k ws).length = ws.length := by
  induction ws with
  | nil => intro k; rfl
  | cons w ws ih => intro k; simp [tagFrom, ih]

theorem tagFrom_idem (ws : List (Comment μ)) :
    ∀ k, tagFrom k (tagFrom k ws) = tagFrom k ws := by
  induction ws with
  | nil => intro k; rfl
  | cons w ws ih => intro k; rw [tagFrom, tagFrom, ih]

theorem tagFrom_map_clusterId (ws : List (Comment μ)) :
    ∀ k, (tagFrom k ws).map (fun y => y.clusterId) =
      (List.range' (k + 1) ws.length).map some := by
  induction ws with
  | nil => intro k; rfl
  | cons w ws ih =>
    intro k
    simp only [List.length_cons]
    rw [tagFrom, List.range'_succ]
    simp [ih (k + 1)]

theorem tagFrom_frame {β : Type} (F : Comment μ → β)
    (hF : ∀ (c : Comment μ) x z,
      F { c with clusterId := x, clusteringError := z } = F c)
    (ws : List (Comment μ)) :
    ∀ k, (tagFrom k ws).map F = ws.map F := by
  induction ws with
  | nil => intro k; rfl
  | cons w ws ih => intro k; simp [tagFrom, ih, hF]

theorem tagFrom_get (ws : List (Comment μ)) :
    ∀ k i (hi : i < (tagFrom k ws).length) (hi' : i < ws.length),
      (tagFrom k ws).get ⟨i, hi⟩ =
        { ws.get ⟨i, hi'⟩ with
            clusterId := some (k + 1 + i),
            clusteringError := some "No embedding available" } := by
  induction ws with
  | nil => intro k i hi hi'; simp at hi'
  | cons w ws ih =>
    intro k i hi hi'
    cases i with
    | zero => rfl
    | succ j =>
      simp only [tagFrom]
      have hj : j < (tagFrom (k + 1) ws).length := by
        rw [tagFrom_length]
        simpa using hi'
      have hj' : j < ws.length := by simpa using hi'
      simp only [List.get_cons_succ]
      rw [ih (k + 1) j hj hj']
      have : k + 1 + 1 + j = k + 1 + (j + 1) := by omega
      simp [this]

/-- Every successful run decomposes into the greedy pass over the comments
with an embedding followed by the tagging of the embedding-less ones. -/
theorem performClustering_ok_elim (t : ℝ) (xs ys : List (Comment μ))
    (h : performClustering t xs = .ok ys) :
    ∃ cl out1,
      clusterFold t ([], []) (xs.filter fun c => c.embedding.isSome) =
        .ok (cl, out1) ∧
      ys = out1 ++ tagFrom cl.length (xs.filter fun c => !c.embedding.isSome) := by
  rw [performClustering] at h
  cases hfold : clusterFold t ([], []) (xs.filter fun c => c.embedding.isSome) with
  | error msg => simp only [hfold] at h; exact absurd h (by simp)
  | ok st =>
    obtain ⟨cl, as⟩ := st
    simp only [hfold] at h
    rw [foldl_addMissing] at h
    simp only [Except.ok.injEq] at h
    exact ⟨cl, as, rfl, h.symm⟩

/-- All records produced by the greedy pass keep an embedding. -/
theorem clusterFold_out_isSome (t : ℝ) (vs : List (Comment μ))
    (hvs : ∀ v ∈ vs, v.embedding.isSome = true)
    (cl cl' : List Nat) (as out : List (Comment μ))
    (h : clusterFold t (cl, as) vs = .ok (cl', as ++ out)) :
    ∀ y ∈ out, y.embedding.isSome = true := by
  obtain ⟨out2, hout2, hmap⟩ := clusterFold_frame (fun y => y.embedding)
    (by intro c x y; rfl) t vs cl as cl' (as ++ out) h
  have : out = out2 := List.append_cancel_left hout2
  subst this
  intro y hy
  have : y.embedding ∈ out.map fun y => y.embedding := List.mem_map_of_mem _ hy
  rw [hmap] at this
  rw [List.mem_map] at this
  obtain ⟨v, hv, hveq⟩ := this
  rw [← hveq]
  exact hvs v hv

/-- All records produced by the tagging loop keep their (absent)
embedding. -/
theorem tagFrom_out_isSome (k : Nat) (ws : List (Comment μ))
    (hws : ∀ w ∈ ws, w.embedding.isSome = false) :
    ∀ y ∈ tagFrom k ws, y.embedding.isSome = false := by
  intro y hy
  have hmap := tagFrom_frame (fun y => y.embedding) (by intro c x z; rfl) ws k
  have : y.embedding ∈ (tagFrom k ws).map fun y => y.embedding :=
    List.mem_map_of_mem _ hy
  rw [hmap, List.mem_map] at this
  obtain ⟨w, hw, hweq⟩ := this
  rw [← hweq]
  exact hws w hw

/-- Claim C3 — idempotence: re-running the clusterer on its own output,
with the same threshold, returns the output unchanged, so every item keeps
the very same cluster identifier (and score) it received in the first
run. -/
theorem c3_idempotent (t : ℝ) (xs ys : List (Comment μ))
    (h : performClustering t xs = .ok ys) :
    performClustering t ys = .ok ys := by
  obtain ⟨cl, out1, hfold, hys⟩ := performClustering_ok_elim t xs ys h
  have hvalid_some : ∀ v ∈ xs.filter (fun c => c.embedding.isSome),
      v.embedding.isSome = true := by
    intro v hv; exact (List.mem_filter.mp hv).2
  have hmissing_none : ∀ w ∈ xs.filter (fun c => !c.embedding.isSome),
      w.embedding.isSome = false := by
    intro w hw
    have := (List.mem_filter.mp hw).2
    simpa using this
  have hout1_some : ∀ y ∈ out1, y.embedding.isSome = true :=
    clusterFold_out_isSome t _ hvalid_some [] cl [] out1 (by simpa using hfold)
  have htag_none : ∀ y ∈ tagFrom cl.length
      (xs.filter fun c => !c.embedding.isSome), y.embedding.isSome = false :=
    tagFrom_out_isSome cl.length _ hmissing_none
  have hfilter1 : ys.filter (fun c => c.embedding.isSome) = out1 := by
    rw [hys, List.filter_append]
    rw [List.filter_eq_self.mpr hout1_some]
    rw [List.filter_eq_nil_iff.mpr (by intro a ha; simp [htag_none a ha])]
    simp
  have hfilter2 : ys.filter (fun c => !c.embedding.isSome) =
      tagFrom cl.length (xs.filter fun c => !c.embedding.isSome) := by
    rw [hys, List.filter_append]
    rw [List.filter_eq_nil_iff.mpr (by intro a ha; simp [hout1_some a ha])]
    rw [List.filter_eq_self.mpr (by intro a ha; simp [htag_none a ha])]
    simp
  have hrefold : clusterFold t ([], []) out1 = .ok (cl, out1) := by
    have := clusterFold_reprocess t
      (xs.filter fun c => c.embedding.isSome) [] [] out1 cl (by simpa using hfold)
    simpa using this
  rw [performClustering, hfilter1]
  simp only [hrefold]
  rw [hfilter2, foldl_addMissing, tagFrom_idem]
  rw [hys]

/-- Appending a block of fresh consecutive ids extends the
first-appearance list by that block. -/
theorem firstsAux_fresh :
    ∀ (n k : Nat) (acc : List (Option Nat)), acc = (List.range' 1 k).map some →
      firstsAux acc ((List.range' (k + 1) n).map some) =
        (List.range' 1 (k + n)).map some := by
  intro n
  induction n with
  | zero => intro k acc hacc; simpa using hacc
  | succ n ih =>
    intro k acc hacc
    rw [List.range'_succ, List.map_cons, firstsAux]
    have hnot : some (k + 1) ∉ acc := by
      rw [hacc]
      intro hmem
      rw [List.mem_map] at hmem
      obtain ⟨x, hx, hxeq⟩ := hmem
      rw [Option.some_inj] at hxeq
      rw [List.mem_range'_1] at hx
      omega
    rw [if_neg hnot]
    have hacc' : acc ++ [some (k + 1)] = (List.range' 1 (k + 1)).map some := by
      rw [hacc, List.range'_1_concat]
      simp [Nat.add_comm]
    have := ih (k + 1) (acc ++ [some (k + 1)]) hacc'
    rw [show k + 1 + 1 = k + 2 from rfl] at this
    rw [this]
    congr 2
    omega

/-- Claim C4 — output structure: the output lists exactly the input items,
embedded ones first in their original relative order, then the
embedding-less ones in their original relative order; every output record
carries a cluster identifier, and the identifiers appear for the first
time in the order 1, 2, …, k. -/
theorem c4_output_structure (t : ℝ) (xs ys : List (Comment μ))
    (h : performClustering t xs = .ok ys) :
    ys.map (fun c => (c.id, c.text, c.embedding)) =
      ((xs.filter fun c => c.embedding.isSome) ++
        (xs.filter fun c => !c.embedding.isSome)).map
          (fun c => (c.id, c.text, c.embedding)) ∧
    (∀ y ∈ ys, y.clusterId.isSome = true) ∧
    ∃ k, firsts (ys.map fun c => c.clusterId) = (List.range' 1 k).map some := by
  obtain ⟨cl, out1, hfold, hys⟩ := performClustering_ok_elim t xs ys h
  obtain ⟨out1', hout1', hmap1⟩ := clusterFold_frame
    (fun c => (c.id, c.text, c.embedding)) (by intro c x y; rfl) t _ [] [] cl out1
    (by simpa using hfold)
  simp only [List.nil_append] at hout1'
  subst hout1'
  have hmap2 := tagFrom_frame (fun c => (c.id, c.text, c.embedding))
    (by intro c x z; rfl) (xs.filter fun c => !c.embedding.isSome) cl.length
  obtain ⟨hwf, hfirsts, hids⟩ := clusterFold_inv t _ [] [] cl out1
    (by simpa using hfold) (by simp) (by rw [firsts]; rfl) (by simp)
  have htagids := tagFrom_map_clusterId
    (xs.filter fun c => !c.embedding.isSome) cl.length
  refine ⟨?_, ?_, ?_⟩
  · rw [hys, List.map_append, hmap1, hmap2, List.map_append]
  · intro y hy
    rw [hys] at hy
    rcases List.mem_append.mp hy with hy' | hy'
    · obtain ⟨cid, hcid, -⟩ := hids y hy'
      rw [hcid]; rfl
    · have : y.clusterId ∈ (tagFrom cl.length
          (xs.filter fun c => !c.embedding.isSome)).map fun y => y.clusterId :=
        List.mem_map_of_mem _ hy'
      rw [htagids, List.mem_map] at this
      obtain ⟨x, -, hxeq⟩ := this
      rw [← hxeq]; rfl
  · refine ⟨cl.length + (xs.filter fun c => !c.embedding.isSome).length, ?_⟩
    rw [hys, List.map_append, firsts, firstsAux_append]
    rw [show firstsAux [] (out1.map fun y => y.clusterId) =
      firsts (out1.map fun y => y.clusterId) from rfl]
    rw [hfirsts, htagids]
    have hcl : cl.map some = (List.range' 1 cl.length).map some := by
      rw [← hwf]
    rw [hcl]
    rw [firstsAux_fresh _ cl.length _ rfl]

theorem tagFrom_filter_le (ws : List (Comment μ)) :
    ∀ k m, m ≤ k →
      (tagFrom k ws).filter (fun y => y.clusterId == some m) = [] := by
  induction ws with
  | nil => intro k m hm; rfl
  | cons w ws ih =>
    intro k m hm
    rw [tagFrom, List.filter_cons]
    have hbeq : (({ w with clusterId := some (k + 1), clusteringError := some "No embedding available" } : Comment μ).clusterId == some m) = false := by
      simp only [beq_eq_false_iff_ne, ne_eq, Option.some_inj]
      omega
    rw [hbeq]
    simp only [Bool.false_eq_true, if_false]
    exact ih (k + 1) m (by omega)

theorem tagFrom_filter_count (ws : List (Comment μ)) :
    ∀ k m, k < m → m ≤ k + ws.length →
      ((tagFrom k ws).filter (fun y => y.clusterId == some m)).length = 1 := by
  induction ws with
  | nil => intro k m h1 h2; simp only [List.length_nil] at h2; omega
  | cons w ws ih =>
    intro k m h1 h2
    rw [tagFrom, List.filter_cons]
    by_cases hm : k + 1 = m
    · have hbeq : (({ w with clusterId := some (k + 1), clusteringError := some "No embedding available" } : Comment μ).clusterId == some m) = true := by
        simp [hm]
      rw [hbeq]
      simp only [if_true]
      rw [List.length_cons, tagFrom_filter_le ws (k + 1) m (by omega)]
      rfl
    · have hbeq : (({ w with clusterId := some (k + 1), clusteringError := some "No embedding available" } : Comment μ).clusterId == some m) = false := by
        simp only [beq_eq_false_iff_ne, ne_eq, Option.some_inj]
        omega
      rw [hbeq]
      simp only [Bool.false_eq_true, if_false]
      exact ih (k + 1) m (by omega) (by simp only [List.length_cons] at h2; omega)

/-- Claim C5 — embedding-less items: each item without an embedding lands
after all embedded items, in its own fresh singleton cluster
(`k + 1 + i` for the `i`-th such item, `k` the number of clusters used by
the embedded items), tagged with the error marker and without a similarity
score, in the original relative order. -/
theorem c5_missing_embeddings (t : ℝ) (xs ys : List (Comment μ))
    (hraw : ∀ x ∈ xs, x.similarityScore = none)
    (h : performClustering t xs = .ok ys) :
    ∃ k out1 out2, ys = out1 ++ out2 ∧
      (∀ y ∈ out1, y.embedding.isSome = true ∧
        ∃ c, y.clusterId = some c ∧ 1 ≤ c ∧ c ≤ k) ∧
      out2.length = (xs.filter fun c => !c.embedding.isSome).length ∧
      (∀ i (hi : i < out2.length)
         (hi' : i < (xs.filter fun c => !c.embedding.isSome).length),
        (out2.get ⟨i, hi⟩).clusterId = some (k + 1 + i) ∧
        (out2.get ⟨i, hi⟩).clusteringError = some "No embedding available" ∧
        (out2.get ⟨i, hi⟩).similarityScore = none ∧
        (out2.get ⟨i, hi⟩).id =
          ((xs.filter fun c => !c.embedding.isSome).get ⟨i, hi'⟩).id ∧
        (ys.filter fun y => y.clusterId == some (k + 1 + i)).length = 1) := by
  obtain ⟨cl, out1, hfold, hys⟩ := performClustering_ok_elim t xs ys h
  obtain ⟨hwf, -, hids⟩ := clusterFold_inv t _ [] [] cl out1
    (by simpa using hfold) (by simp) (by rw [firsts]; rfl) (by simp)
  have hvalid_some : ∀ v ∈ xs.filter (fun c => c.embedding.isSome),
      v.embedding.isSome = true := by
    intro v hv; exact (List.mem_filter.mp hv).2
  have hout1_some : ∀ y ∈ out1, y.embedding.isSome = true :=
    clusterFold_out_isSome t _ hvalid_some [] cl [] out1 (by simpa using hfold)
  refine ⟨cl.length, out1, _, hys, ?_, tagFrom_length _ _, ?_⟩
  · intro y hy
    refine ⟨hout1_some y hy, ?_⟩
    obtain ⟨cid, hcid, hmem⟩ := hids y hy
    rw [hwf, List.mem_range'_1] at hmem
    exact ⟨cid, hcid, by omega, by omega⟩
  · intro i hi hi'
    rw [tagFrom_get _ cl.length i hi hi']
    refine ⟨by simp, by simp, ?_, by simp, ?_⟩
    · have hmem : (xs.filter fun c => !c.embedding.isSome).get ⟨i, hi'⟩ ∈
          xs.filter fun c => !c.embedding.isSome := List.get_mem _ _ _
      have := List.mem_of_mem_filter hmem
      simpa using hraw _ this
    · rw [hys, List.filter_append, List.length_append]
      rw [List.filter_eq_nil_iff.mpr ?hnil]
      case hnil =>
        intro y hy
        obtain ⟨cid, hcid, hmem⟩ := hids y hy
        rw [hwf, List.mem_range'_1] at hmem
        simp only [hcid, beq_iff_eq, Option.some_inj]
        omega
      rw [List.length_nil, tagFrom_filter_count _ cl.length (cl.length + 1 + i)
        (by omega) ?hle]
      case hle =>
        rw [tagFrom_length] at hi
        omega

/-- A successful cluster lookup exhibits a member of the accumulated
output, in the found cluster, whose similarity to the candidate reached
the threshold. -/
theorem findFirstCluster_member (t : ℝ) (e : List ℝ) (as : List (Comment μ))
    (cids : List Nat) (cid : Nat) (s : ℝ)
    (h : findFirstCluster t e as cids = .ok (some (cid, s))) :
    ∃ m, m ∈ as ∧ m.clusterId = some cid ∧
      ∃ em, m.embedding = some em ∧ cosineSimilarity e em = .ok s ∧ t ≤ s := by
  obtain ⟨pre, post, hsplit, hpre, hscan⟩ :=
    findFirstCluster_ok_some t e as cids cid s h
  obtain ⟨pre2, m, post2, hsplit2, hpre2, em, hm, hcs, hts⟩ :=
    scanMembers_ok_some t e _ s hscan
  have hmfilter : m ∈ as.filter (fun c => c.clusterId == some cid) := by
    rw [hsplit2]
    exact List.mem_append_right pre2 (List.mem_cons_self _ _)
  have hmem := List.mem_filter.mp hmfilter
  exact ⟨m, hmem.1, by simpa using hmem.2, em, hm, hcs, hts⟩

/-- Score invariant of the greedy pass: every embedded record carries a
score that is at least the threshold, and the score is either the founder
sentinel 1 or a cosine similarity to a cluster mate. -/
theorem clusterFold_scores (t : ℝ) (ht1 : t ≤ 1) (vs : List (Comment μ)) :
    ∀ cl as cl' as', clusterFold t (cl, as) vs = .ok (cl', as') →
      (∀ y ∈ as, y.embedding.isSome = true →
        ∃ s, y.similarityScore = some s ∧ t ≤ s ∧
          (s = 1 ∨ ∃ m, m ∈ as ∧ m.clusterId = y.clusterId ∧
            ∃ e em, y.embedding = some e ∧ m.embedding = some em ∧
              cosineSimilarity e em = Except.ok s)) →
      (∀ y ∈ as', y.embedding.isSome = true →
        ∃ s, y.similarityScore = some s ∧ t ≤ s ∧
          (s = 1 ∨ ∃ m, m ∈ as' ∧ m.clusterId = y.clusterId ∧
            ∃ e em, y.embedding = some e ∧ m.embedding = some em ∧
              cosineSimilarity e em = Except.ok s)) := by
  induction vs with
  | nil =>
    intro cl as cl' as' h hinv
    rw [clusterFold] at h
    simp only [Except.ok.injEq, Prod.mk.injEq] at h
    obtain ⟨rfl, rfl⟩ := h
    exact hinv
  | cons v vs ih =>
    intro cl as cl' as' h hinv
    rw [clusterFold] at h
    cases hstep : clusterStep t (cl, as) v with
    | error msg => simp only [hstep] at h; exact absurd h (by simp)
    | ok st1 =>
      simp only [hstep] at h
      obtain ⟨e, he, hcase⟩ := clusterStep_ok_elim t cl as v st1 hstep
      rcases hcase with ⟨cid, s, hfind, rfl⟩ | ⟨hfind, rfl⟩
      · refine ih _ _ _ _ h ?_
        intro y hy hysome
        rcases List.mem_append.mp hy with hy' | hy'
        · obtain ⟨s0, hs0, hts0, hrest⟩ := hinv y hy' hysome
          refine ⟨s0, hs0, hts0, ?_⟩
          rcases hrest with h1 | ⟨m, hm, hmc, hrest2⟩
          · exact Or.inl h1
          · exact Or.inr ⟨m, List.mem_append_left _ hm, hmc, hrest2⟩
        · simp only [List.mem_singleton] at hy'
          subst hy'
          obtain ⟨m, hmas, hmcid, em, hmem, hcs, hts⟩ :=
            findFirstCluster_member t e as _ cid s hfind
          refine ⟨s, by simp, hts, Or.inr ⟨m, List.mem_append_left _ hmas, ?_,
            e, em, by simp [he], hmem, hcs⟩⟩
          simp [hmcid]
      · refine ih _ _ _ _ h ?_
        intro y hy hysome
        rcases List.mem_append.mp hy with hy' | hy'
        · obtain ⟨s0, hs0, hts0, hrest⟩ := hinv y hy' hysome
          refine ⟨s0, hs0, hts0, ?_⟩
          rcases hrest with h1 | ⟨m, hm, hmc, hrest2⟩
          · exact Or.inl h1
          · exact Or.inr ⟨m, List.mem_append_left _ hm, hmc, hrest2⟩
        · simp only [List.mem_singleton] at hy'
          subst hy'
          exact ⟨1, by simp, ht1, Or.inl rfl⟩

/-- Claim C9 — recorded scores: every embedded output record carries a
similarity score, that score is at least the threshold, and it is either
the founder sentinel 1 or the cosine similarity to a member of the same
cluster. -/
theorem c9_scores_meet_threshold (t : ℝ) (ht1 : t ≤ 1)
    (xs ys : List (Comment μ)) (h : performClustering t xs = .ok ys) :
    ∀ y ∈ ys, y.embedding.isSome = true →
      ∃ s, y.similarityScore = some s ∧ t ≤ s ∧
        (s = 1 ∨ ∃ m, m ∈ ys ∧ m.clusterId = y.clusterId ∧
          ∃ e em, y.embedding = some e ∧ m.embedding = some em ∧
            cosineSimilarity e em = Except.ok s) := by
  obtain ⟨cl, out1, hfold, hys⟩ := performClustering_ok_elim t xs ys h
  have hprop := clusterFold_scores t ht1 _ [] [] cl out1 (by simpa using hfold)
    (by intro y hy; exact absurd hy (List.not_mem_nil y))
  have hmissing_none : ∀ w ∈ xs.filter (fun c => !c.embedding.isSome),
      w.embedding.isSome = false := by
    intro w hw
    have := (List.mem_filter.mp hw).2
    simpa using this
  have htag_none : ∀ y ∈ tagFrom cl.length
      (xs.filter fun c => !c.embedding.isSome), y.embedding.isSome = false :=
    tagFrom_out_isSome cl.length _ hmissing_none
  intro y hy hysome
  rw [hys] at hy
  rcases List.mem_append.mp hy with hy' | hy'
  · obtain ⟨s, hs, hts, hrest⟩ := hprop y hy' hysome
    refine ⟨s, hs, hts, ?_⟩
    rcases hrest with h1 | ⟨m, hm, hmc, hrest2⟩
    · exact Or.inl h1
    · exact Or.inr ⟨m, by rw [hys]; exact List.mem_append_left _ hm, hmc, hrest2⟩
  · rw [htag_none y hy'] at hysome
    exact absurd hysome (by simp)

/-- Score-bound invariant of the greedy pass for a positive threshold. -/
theorem clusterFold_bounds (t : ℝ) (ht0 : 0 < t) (vs : List (Comment μ)) :
    ∀ cl as cl' as', clusterFold t (cl, as) vs = .ok (cl', as') →
      (∀ y ∈ as, ∀ s : ℝ, y.similarityScore = some s → 0 ≤ s ∧ s ≤ 1) →
      (∀ y ∈ as', ∀ s : ℝ, y.similarityScore = some s → 0 ≤ s ∧ s ≤ 1) := by
  induction vs with
  | nil =>
    intro cl as cl' as' h hinv
    rw [clusterFold] at h
    simp only [Except.ok.injEq, Prod.mk.injEq] at h
    obtain ⟨rfl, rfl⟩ := h
    exact hinv
  | cons v vs ih =>
    intro cl as cl' as' h hinv
    rw [clusterFold] at h
    cases hstep : clusterStep t (cl, as) v with
    | error msg => simp only [hstep] at h; exact absurd h (by simp)
    | ok st1 =>
      simp only [hstep] at h
      obtain ⟨e, he, hcase⟩ := clusterStep_ok_elim t cl as v st1 hstep
      rcases hcase with ⟨cid, s, hfind, rfl⟩ | ⟨hfind, rfl⟩
      · refine ih _ _ _ _ h ?_
        intro y hy s0 hs0
        rcases List.mem_append.mp hy with hy' | hy'
        · exact hinv y hy' s0 hs0
        · simp only [List.mem_singleton] at hy'
          subst hy'
          simp only [Option.some_inj] at hs0
          obtain ⟨m, -, -, em, -, hcs, hts⟩ :=
            findFirstCluster_member t e as _ cid s hfind
          subst hs0
          exact ⟨le_trans ht0.le hts, cosineSimilarity_le_one e em s hcs⟩
      · refine ih _ _ _ _ h ?_
        intro y hy s0 hs0
        rcases List.mem_append.mp hy with hy' | hy'
        · exact hinv y hy' s0 hs0
        · simp only [List.mem_singleton] at hy'
          subst hy'
          simp only [Option.some_inj] at hs0
          subst hs0
          norm_num

/-- Claim C8 — score range: for a threshold in (0, 1] and spec-format
input (no pre-existing scores), every similarity score appearing in the
output lies in [0, 1]. -/
theorem c8_scores_in_unit_interval (t : ℝ) (xs ys : List (Comment μ))
    (ht0 : 0 < t) (ht1 : t ≤ 1)
    (hraw : ∀ x ∈ xs, x.similarityScore = none)
    (h : performClustering t xs = .ok ys) :
    ∀ y ∈ ys, ∀ s : ℝ, y.similarityScore = some s → 0 ≤ s ∧ s ≤ 1 := by
  obtain ⟨cl, out1, hfold, hys⟩ := performClustering_ok_elim t xs ys h
  have hprop := clusterFold_bounds t ht0 _ [] [] cl out1 (by simpa using hfold)
    (by intro y hy; exact absurd hy (List.not_mem_nil y))
  intro y hy s hs
  rw [hys] at hy
  rcases List.mem_append.mp hy with hy' | hy'
  · exact hprop y hy' s hs
  · have hmap := tagFrom_frame (fun y => y.similarityScore)
      (by intro c x z; rfl) (xs.filter fun c => !c.embedding.isSome) cl.length
    have hin : y.similarityScore ∈ (tagFrom cl.length
        (xs.filter fun c => !c.embedding.isSome)).map
          fun y => y.similarityScore := List.mem_map_of_mem _ hy'
    rw [hmap, List.mem_map] at hin
    obtain ⟨w, hw, hweq⟩ := hin
    rw [hraw w (List.mem_of_mem_filter hw)] at hweq
    rw [← hweq] at hs
    exact absurd hs (by simp)

/-- Claim C10 — frame property: every field other than `clusterId`,
`similarityScore` and `clusteringError` — the id, the text, the embedding
and all remaining metadata — is identical between each output record and
its corresponding input item (inputs taken in the documented order:
embedded ones first, then the embedding-less ones). -/
theorem c10_fields_preserved (t : ℝ) (xs ys : List (Comment μ))
    (h : performClustering t xs = .ok ys) :
    ys.map (fun c => (c.id, c.text, c.embedding, c.meta)) =
      ((xs.filter fun c => c.embedding.isSome) ++
        (xs.filter fun c => !c.embedding.isSome)).map
          (fun c => (c.id, c.text, c.embedding, c.meta)) := by
  obtain ⟨cl, out1, hfold, hys⟩ := performClustering_ok_elim t xs ys h
  obtain ⟨out1', hout1', hmap1⟩ := clusterFold_frame
    (fun c => (c.id, c.text, c.embedding, c.meta)) (by intro c x y; rfl)
    t _ [] [] cl out1 (by simpa using hfold)
  simp only [List.nil_append] at hout1'
  subst hout1'
  have hmap2 := tagFrom_frame (fun c => (c.id, c.text, c.embedding, c.meta))
    (by intro c x z; rfl) (xs.filter fun c => !c.embedding.isSome) cl.length
  rw [hys, List.map_append, hmap1, hmap2, List.map_append]

/-- Claim C6 — cosine similarity: on equal-length vectors the function
returns the dot product divided by the product of the Euclidean norms,
except that a zero norm yields 0; it is symmetric, and identical vectors
with non-zero norm have similarity exactly 1. -/
theorem c6_cosine_formula (a b : List ℝ) (h : a.length = b.length) :
    cosineSimilarity a b =
      .ok (if (a.map fun x => x * x).sum = 0 ∨ (b.map fun x => x * x).sum = 0
        then 0
        else (List.zipWith (fun x y => x * y) a b).sum /
          (Real.sqrt ((a.map fun x => x * x).sum) *
            Real.sqrt ((b.map fun x => x * x).sum))) ∧
    cosineSimilarity a b = cosineSimilarity b a ∧
    ((a.map fun x => x * x).sum ≠ 0 → cosineSimilarity a a = .ok 1) := by
  refine ⟨?_, cosineSimilarity_comm a b, fun hne => cosineSimilarity_self a hne⟩
  unfold cosineSimilarity
  rw [if_neg (by simp [h])]
  rw [apply_ite Except.ok]
  rw [← simSums_dot_eq, ← simSums_normA_eq a b h, ← simSums_normB_eq a b h]

/-! ### Totality of the clusterer on dimension-uniform inputs -/

theorem scanMembers_total (t : ℝ) (e : List ℝ) (ms : List (Comment μ))
    (h : ∀ m ∈ ms, ∃ em, m.embedding = some em ∧ em.length = e.length) :
    ∃ r, scanMembers t e ms = .ok r := by
  induction ms with
  | nil => exact ⟨none, rfl⟩
  | cons m ms ih =>
    obtain ⟨em, hm, hlen⟩ := h m (List.mem_cons_self _ _)
    obtain ⟨v, hv⟩ := cosineSimilarity_ok_of_length e em hlen.symm
    rw [scanMembers]
    by_cases hts : t ≤ v
    · exact ⟨some v, by simp only [hm, hv]; rw [if_pos hts]⟩
    · obtain ⟨r, hr⟩ := ih fun x hx => h x (List.mem_cons_of_mem _ hx)
      exact ⟨r, by simp only [hm, hv]; rw [if_neg hts]; exact hr⟩

theorem findFirstCluster_total (t : ℝ) (e : List ℝ) (as : List (Comment μ))
    (h : ∀ m ∈ as, ∃ em, m.embedding = some em ∧ em.length = e.length) :
    ∀ cids, ∃ r, findFirstCluster t e as cids = .ok r := by
  intro cids
  induction cids with
  | nil => exact ⟨none, rfl⟩
  | cons cid rest ih =>
    obtain ⟨r0, hr0⟩ := scanMembers_total t e
      (as.filter fun c => c.clusterId == some cid)
      (fun m hm => h m (List.mem_of_mem_filter hm))
    rw [findFirstCluster]
    cases r0 with
    | some s => exact ⟨some (cid, s), by simp only [hr0]⟩
    | none =>
      obtain ⟨r, hr⟩ := ih
      exact ⟨r, by simp only [hr0]; exact hr⟩

theorem clusterFold_total (t : ℝ) (d : Nat) (vs : List (Comment μ))
    (hvs : ∀ v ∈ vs, ∃ e, v.embedding = some e ∧ e.length = d) :
    ∀ cl as, (∀ m ∈ as, ∃ em, m.embedding = some em ∧ em.length = d) →
      ∃ st', clusterFold t (cl, as) vs = .ok st' := by
  induction vs with
  | nil => intro cl as _; exact ⟨(cl, as), rfl⟩
  | cons v vs ih =>
    intro cl as has
    obtain ⟨e, he, hlen⟩ := hvs v (List.mem_cons_self _ _)
    have has' : ∀ m ∈ as, ∃ em, m.embedding = some em ∧ em.length = e.length := by
      intro m hm
      obtain ⟨em, h1, h2⟩ := has m hm
      exact ⟨em, h1, by rw [h2, hlen]⟩
    obtain ⟨r, hr⟩ := findFirstCluster_total t e as has' (List.range' 1 cl.length)
    have hvs' : ∀ x ∈ vs, ∃ e0, x.embedding = some e0 ∧ e0.length = d :=
      fun x hx => hvs x (List.mem_cons_of_mem _ hx)
    cases r with
    | some p =>
      obtain ⟨cid, s⟩ := p
      have hstep : clusterStep t (cl, as) v =
          .ok (cl, as ++ [{ v with clusterId := some cid,
                                   similarityScore := some s }]) := by
        rw [clusterStep]
        simp only [he, hr]
      obtain ⟨st', hst'⟩ := ih hvs' cl
        (as ++ [{ v with clusterId := some cid, similarityScore := some s }])
        (by
          intro m hm
          rcases List.mem_append.mp hm with hm' | hm'
          · exact has m hm'
          · simp only [List.mem_singleton] at hm'
            subst hm'
            exact ⟨e, by simp [he], hlen⟩)
      exact ⟨st', by rw [clusterFold]; simp only [hstep]; exact hst'⟩
    | none =>
      have hstep : clusterStep t (cl, as) v =
          .ok (cl ++ [cl.length + 1],
               as ++ [{ v with clusterId := some (cl.length + 1),
                               similarityScore := some 1 }]) := by
        rw [clusterStep]
        simp only [he, hr]
      obtain ⟨st', hst'⟩ := ih hvs' (cl ++ [cl.length + 1])
        (as ++ [{ v with clusterId := some (cl.length + 1),
                         similarityScore := some 1 }])
        (by
          intro m hm
          rcases List.mem_append.mp hm with hm' | hm'
          · exact has m hm'
          · simp only [List.mem_singleton] at hm'
            subst hm'
            exact ⟨e, by simp [he], hlen⟩)
      exact ⟨st', by rw [clusterFold]; simp only [hstep]; exact hst'⟩

/-- Claim C7 — error behaviour: `cosineSimilarity` raises exactly on
length mismatch (with the source's message), never on equal-length
vectors; and the clusterer as a whole cannot fail on inputs whose
embeddings all share one dimension. -/
theorem c7_dimension_mismatch :
    (∀ a b : List ℝ, a.length ≠ b.length →
      cosineSimilarity a b = .error "Vectors must have the same length") ∧
    (∀ a b : List ℝ, a.length = b.length → ∃ v, cosineSimilarity a b = .ok v) ∧
    (∀ (μ : Type) (t : ℝ) (xs : List (Comment μ)) (d : Nat),
      (∀ x ∈ xs, ∀ e, x.embedding = some e → e.length = d) →
      ∃ ys, performClustering t xs = .ok ys) := by
  refine ⟨cosineSimilarity_error_of_ne, cosineSimilarity_ok_of_length, ?_⟩
  intro μ t xs d hdim
  have hvalid : ∀ v ∈ xs.filter (fun c => c.embedding.isSome),
      ∃ e, v.embedding = some e ∧ e.length = d := by
    intro v hv
    have h1 := (List.mem_filter.mp hv).1
    have h2 := (List.mem_filter.mp hv).2
    rw [Option.isSome_iff_exists] at h2
    obtain ⟨e, he⟩ := h2
    exact ⟨e, he, hdim v h1 e he⟩
  obtain ⟨⟨cl, as⟩, hfold⟩ := clusterFold_total t d _ hvalid [] []
    (by intro m hm; exact absurd hm (List.not_mem_nil m))
  refine ⟨((xs.filter fun c => !c.embedding.isSome).foldl
    addMissingStep (cl, as)).2, ?_⟩
  rw [performClustering]
  simp only [hfold]

/-- Claim C2 — first-fit assignment: a comment with an embedding joins the
first cluster, scanned in ascending identifier order with members scanned
in assignment order, that contains any member whose similarity reaches the
threshold (equality counts); the recorded score is the similarity to the
first qualifying member, all earlier members of that cluster and all
members of all lower-numbered clusters fall below the threshold.  If no
cluster qualifies, the comment founds cluster `k + 1` and its recorded
score is the constant 1, not computed from its embedding. -/
theorem c2_first_fit_step (t : ℝ) (cl : List Nat) (as : List (Comment μ))
    (c : Comment μ) (e : List ℝ) (st' : List Nat × List (Comment μ))
    (he : c.embedding = some e)
    (h : clusterStep t (cl, as) c = Except.ok st') :
    (∃ cid s pre m post,
      cid ∈ List.range' 1 cl.length ∧
      as.filter (fun x => x.clusterId == some cid) = pre ++ m :: post ∧
      (∀ x ∈ pre, ∃ ex sx, x.embedding = some ex ∧
        cosineSimilarity e ex = Except.ok sx ∧ sx < t) ∧
      (∃ em, m.embedding = some em ∧ cosineSimilarity e em = Except.ok s ∧
        t ≤ s) ∧
      (∀ cid' ∈ List.range' 1 cl.length, cid' < cid →
        ∀ x ∈ as.filter (fun x => x.clusterId == some cid'),
          ∃ ex sx, x.embedding = some ex ∧
            cosineSimilarity e ex = Except.ok sx ∧ sx < t) ∧
      st' = (cl, as ++ [{ c with clusterId := some cid,
                                 similarityScore := some s }]))
    ∨ ((∀ cid ∈ List.range' 1 cl.length,
          ∀ x ∈ as.filter (fun x => x.clusterId == some cid),
            ∃ ex sx, x.embedding = some ex ∧
              cosineSimilarity e ex = Except.ok sx ∧ sx < t) ∧
       st' = (cl ++ [cl.length + 1],
              as ++ [{ c with clusterId := some (cl.length + 1),
                              similarityScore := some 1 }])) := by
  obtain ⟨e0, he0, hcase⟩ := clusterStep_ok_elim t cl as c st' h
  have he0e : e = e0 := Option.some_inj.mp (he.symm.trans he0)
  subst he0e
  rcases hcase with ⟨cid, s, hfind, rfl⟩ | ⟨hfind, rfl⟩
  · obtain ⟨preC, postC, hsplit, hpreC, hscan⟩ :=
      findFirstCluster_ok_some t e as (List.range' 1 cl.length) cid s hfind
    obtain ⟨pre, m, post, hsplit2, hpre, hm⟩ :=
      scanMembers_ok_some t e _ s hscan
    refine Or.inl ⟨cid, s, pre, m, post, ?_, hsplit2, hpre, hm, ?_, rfl⟩
    · rw [hsplit]
      exact List.mem_append_right preC (List.mem_cons_self _ _)
    · intro cid' hmem hlt
      have hpw : (List.range' 1 cl.length).Pairwise (· < ·) :=
        List.pairwise_lt_range' 1 cl.length
      rw [hsplit, List.pairwise_append] at hpw
      obtain ⟨-, hpw2, hcross⟩ := hpw
      have hin : cid' ∈ preC := by
        rw [hsplit] at hmem
        rcases List.mem_append.mp hmem with hin' | hin'
        · exact hin'
        · rcases List.mem_cons.mp hin' with rfl | hin''
          · omega
          · have := (List.pairwise_cons.mp hpw2).1 cid' hin''
            omega
      exact scanMembers_ok_none t e _ (hpreC cid' hin)
  · refine Or.inr ⟨?_, rfl⟩
    intro cid hmem
    exact scanMembers_ok_none t e _
      (findFirstCluster_ok_none t e as (List.range' 1 cl.length) hfind cid hmem)

@[simp] theorem annot_embedding (c : Comment μ) (cid : Nat) (s : ℝ) :
    (annot c cid s).embedding = c.embedding := rfl

@[simp] theorem annot_clusterId (c : Comment μ) (cid : Nat) (s : ℝ) :
    (annot c cid s).clusterId = some cid := rfl

@[simp] theorem annot_similarityScore (c : Comment μ) (cid : Nat) (s : ℝ) :
    (annot c cid s).similarityScore = some s := rfl

/-- Claim C1 — single-link chaining: if sim(A,B) and sim(B,C) reach the
threshold while sim(A,C) does not, clustering [A, B, C] still puts all
three in cluster 1, because a candidate is compared against every
previously assigned member (here C matches B, not the founder A). -/
theorem c1_single_link_chain (t : ℝ) (A B C : Comment μ) (ea eb ec : List ℝ)
    (sab sbc sac : ℝ)
    (hA : A.embedding = some ea) (hB : B.embedding = some eb)
    (hC : C.embedding = some ec)
    (ht0 : 0 < t) (ht1 : t ≤ 1)
    (hab : cosineSimilarity ea eb = .ok sab) (hab2 : t ≤ sab)
    (hbc : cosineSimilarity eb ec = .ok sbc) (hbc2 : t ≤ sbc)
    (hac : cosineSimilarity ea ec = .ok sac) (hac2 : sac < t) :
    ∃ y1 y2 y3, performClustering t [A, B, C] = .ok [y1, y2, y3] ∧
      y1.clusterId = some 1 ∧ y2.clusterId = some 1 ∧ y3.clusterId = some 1 := by
  have hba : cosineSimilarity eb ea = .ok sab := by
    rw [cosineSimilarity_comm]; exact hab
  have hca : cosineSimilarity ec ea = .ok sac := by
    rw [cosineSimilarity_comm]; exact hac
  have hcb : cosineSimilarity ec eb = .ok sbc := by
    rw [cosineSimilarity_comm]; exact hbc
  have hfilter : ([A, B, C].filter fun c => c.embedding.isSome) = [A, B, C] := by
    simp [List.filter_cons, hA, hB, hC]
  have hfilter2 : ([A, B, C].filter fun c => !c.embedding.isSome) = [] := by
    simp [List.filter_cons, hA, hB, hC]
  have hstep1 : clusterStep t (([] : List Nat), ([] : List (Comment μ))) A =
      .ok ([1], [annot A 1 1]) := by
    rw [clusterStep]
    simp only [hA, List.length_nil, List.range'_zero, findFirstCluster]
    simp [annot, hA]
  have hscan2 : scanMembers t eb [annot A 1 1] = .ok (some sab) := by
    rw [scanMembers]
    simp only [annot_embedding, hA, hba]
    rw [if_pos hab2]
  have hfind2 : findFirstCluster t eb [annot A 1 1] [1] = .ok (some (1, sab)) := by
    rw [findFirstCluster]
    have hmem : ([annot A 1 1].filter fun c => c.clusterId == some 1) =
        [annot A 1 1] := by simp
    rw [hmem]
    simp only [hscan2]
  have hstep2 : clusterStep t ([1], [annot A 1 1]) B =
      .ok ([1], [annot A 1 1, annot B 1 sab]) := by
    rw [clusterStep]
    simp only [hB]
    have hlen : (([1] : List Nat), [annot A 1 1]).1.length = 1 := rfl
    rw [hlen, List.range'_one]
    simp only [hfind2]
    simp [annot, hB]
  have hscan3 : scanMembers t ec [annot A 1 1, annot B 1 sab] =
      .ok (some sbc) := by
    rw [scanMembers]
    simp only [annot_embedding, hA, hca]
    rw [if_neg (not_le.mpr hac2)]
    rw [scanMembers]
    simp only [annot_embedding, hB, hcb]
    rw [if_pos hbc2]
  have hfind3 : findFirstCluster t ec [annot A 1 1, annot B 1 sab] [1] =
      .ok (some (1, sbc)) := by
    rw [findFirstCluster]
    have hmem : ([annot A 1 1, annot B 1 sab].filter
        fun c => c.clusterId == some 1) = [annot A 1 1, annot B 1 sab] := by
      simp
    rw [hmem]
    simp only [hscan3]
  have hstep3 : clusterStep t ([1], [annot A 1 1, annot B 1 sab]) C =
      .ok ([1], [annot A 1 1, annot B 1 sab, annot C 1 sbc]) := by
    rw [clusterStep]
    simp only [hC]
    have hlen : (([1] : List Nat), [annot A 1 1, annot B 1 sab]).1.length = 1 :=
      rfl
    rw [hlen, List.range'_one]
    simp only [hfind3]
    simp [annot, hC]
  have hfold : clusterFold t ([], []) [A, B, C] =
      .ok ([1], [annot A 1 1, annot B 1 sab, annot C 1 sbc]) := by
    rw [clusterFold]
    simp only [hstep1]
    rw [clusterFold]
    simp only [hstep2]
    rw [clusterFold]
    simp only [hstep3]
    rw [clusterFold]
  have hrun : performClustering t [A, B, C] =
      .ok [annot A 1 1, annot B 1 sab, annot C 1 sbc] := by
    rw [performClustering, hfilter]
    simp only [hfold, hfilter2]
    rfl
  exact ⟨annot A 1 1, annot B 1 sab, annot C 1 sbc, hrun, rfl, rfl, rfl⟩

/-! ### Concrete evaluations used by the closed instances -/

theorem sqrt_twentyfive : Real.sqrt 25 = 5 := by
  rw [show (25 : ℝ) = 5 ^ 2 by norm_num]
  exact Real.sqrt_sq (by norm_num)

theorem cosineSimilarity_eval_ab :
    cosineSimilarity [(5 : ℝ), 0] [3, 4] = .ok (3 / 5) := by
  rw [cosineSimilarity, if_neg (by simp)]
  have hs : simSums [(5 : ℝ), 0] [3, 4] = (15, 25, 25) := by
    norm_num [simSums]
  rw [hs]
  rw [if_neg (by norm_num)]
  norm_num [sqrt_twentyfive]

theorem cosineSimilarity_eval_bc :
    cosineSimilarity [(3 : ℝ), 4] [0, 5] = .ok (4 / 5) := by
  rw [cosineSimilarity, if_neg (by simp)]
  have hs : simSums [(3 : ℝ), 4] [0, 5] = (20, 25, 25) := by
    norm_num [simSums]
  rw [hs]
  rw [if_neg (by norm_num)]
  norm_num [sqrt_twentyfive]

theorem cosineSimilarity_eval_ac :
    cosineSimilarity [(5 : ℝ), 0] [0, 5] = .ok 0 := by
  rw [cosineSimilarity, if_neg (by simp)]
  have hs : simSums [(5 : ℝ), 0] [0, 5] = (0, 25, 25) := by
    norm_num [simSums]
  rw [hs]
  rw [if_neg (by norm_num)]
  norm_num

theorem cosineSimilarity_eval_one :
    cosineSimilarity [(1 : ℝ)] [1] = .ok 1 := by
  rw [cosineSimilarity, if_neg (by simp)]
  have hs : simSums [(1 : ℝ)] [1] = (1, 1, 1) := by
    norm_num [simSums]
  rw [hs]
  rw [if_neg (by norm_num)]
  norm_num

theorem run_single :
    performClustering (1 / 2 : ℝ) [mk2 "a" (some [1])] =
      .ok [annot (mk2 "a" (some [1])) 1 1] := by
  have hf1 : ([mk2 "a" (some [1])].filter fun c => c.embedding.isSome) =
      [mk2 "a" (some [1])] := by simp [mk2]
  have hf2 : ([mk2 "a" (some [1])].filter fun c => !c.embedding.isSome) =
      [] := by simp [mk2]
  have hstep : clusterStep (1 / 2 : ℝ) (([] : List Nat), ([] : List (Comment Unit)))
      (mk2 "a" (some [1])) = .ok ([1], [annot (mk2 "a" (some [1])) 1 1]) := by
    rw [clusterStep]
    simp only [show (mk2 "a" (some [1])).embedding = some [1] from rfl,
      List.length_nil, List.range'_zero, findFirstCluster]
    simp [annot, mk2]
  have hfold : clusterFold (1 / 2 : ℝ) ([], []) [mk2 "a" (some [1])] =
      .ok ([1], [annot (mk2 "a" (some [1])) 1 1]) := by
    rw [clusterFold]
    simp only [hstep]
    rw [clusterFold]
  rw [performClustering, hf1]
  simp only [hfold, hf2]
  rfl

theorem run_pair :
    performClustering (1 / 2 : ℝ) [mk2 "a" (some [1]), mk2 "b" (some [1])] =
      .ok [annot (mk2 "a" (some [1])) 1 1, annot (mk2 "b" (some [1])) 1 1] := by
  have hf1 : ([mk2 "a" (some [1]), mk2 "b" (some [1])].filter
      fun c => c.embedding.isSome) =
      [mk2 "a" (some [1]), mk2 "b" (some [1])] := by simp [mk2]
  have hf2 : ([mk2 "a" (some [1]), mk2 "b" (some [1])].filter
      fun c => !c.embedding.isSome) = [] := by simp [mk2]
  have hstep1 : clusterStep (1 / 2 : ℝ) (([] : List Nat), ([] : List (Comment Unit)))
      (mk2 "a" (some [1])) = .ok ([1], [annot (mk2 "a" (some [1])) 1 1]) := by
    rw [clusterStep]
    simp only [show (mk2 "a" (some [1])).embedding = some [1] from rfl,
      List.length_nil, List.range'_zero, findFirstCluster]
    simp [annot, mk2]
  have hscan : scanMembers (1 / 2 : ℝ) [1] [annot (mk2 "a" (some [1])) 1 1] =
      .ok (some 1) := by
    rw [scanMembers]
    simp only [annot_embedding,
      show (mk2 "a" (some [1])).embedding = some [1] from rfl,
      cosineSimilarity_eval_one]
    rw [if_pos (by norm_num)]
  have hfind : findFirstCluster (1 / 2 : ℝ) [1] [annot (mk2 "a" (some [1])) 1 1]
      [1] = .ok (some (1, 1)) := by
    rw [findFirstCluster]
    have hmem : ([annot (mk2 "a" (some [1])) 1 1].filter
        fun c => c.clusterId == some 1) = [annot (mk2 "a" (some [1])) 1 1] := by
      simp
    rw [hmem]
    simp only [hscan]
  have hstep2 : clusterStep (1 / 2 : ℝ) ([1], [annot (mk2 "a" (some [1])) 1 1])
      (mk2 "b" (some [1])) =
      .ok ([1], [annot (mk2 "a" (some [1])) 1 1,
                 annot (mk2 "b" (some [1])) 1 1]) := by
    rw [clusterStep]
    simp only [show (mk2 "b" (some [1])).embedding = some [1] from rfl]
    have hlen : (([1] : List Nat), [annot (mk2 "a" (some [1])) 1 1]).1.length = 1 :=
      rfl
    rw [hlen, List.range'_one]
    simp only [hfind]
    simp [annot, mk2]
  have hfold : clusterFold (1 / 2 : ℝ) ([], [])
      [mk2 "a" (some [1]), mk2 "b" (some [1])] =
      .ok ([1], [annot (mk2 "a" (some [1])) 1 1,
                 annot (mk2 "b" (some [1])) 1 1]) := by
    rw [clusterFold]
    simp only [hstep1]
    rw [clusterFold]
    simp only [hstep2]
    rw [clusterFold]
  rw [performClustering, hf1]
  simp only [hfold, hf2]
  rfl

theorem run_mixed :
    performClustering (1 / 2 : ℝ) [mk2 "a" (some [1]), mk2 "n" none] =
      .ok [annot (mk2 "a" (some [1])) 1 1,
           { mk2 "n" none with clusterId := some 2,
                               clusteringError := some "No embedding available" }] := by
  have hf1 : ([mk2 "a" (some [1]), mk2 "n" none].filter
      fun c => c.embedding.isSome) = [mk2 "a" (some [1])] := by simp [mk2]
  have hf2 : ([mk2 "a" (some [1]), mk2 "n" none].filter
      fun c => !c.embedding.isSome) = [mk2 "n" none] := by simp [mk2]
  have hstep1 : clusterStep (1 / 2 : ℝ) (([] : List Nat), ([] : List (Comment Unit)))
      (mk2 "a" (some [1])) = .ok ([1], [annot (mk2 "a" (some [1])) 1 1]) := by
    rw [clusterStep]
    simp only [show (mk2 "a" (some [1])).embedding = some [1] from rfl,
      List.length_nil, List.range'_zero, findFirstCluster]
    simp [annot, mk2]
  have hfold : clusterFold (1 / 2 : ℝ) ([], []) [mk2 "a" (some [1])] =
      .ok ([1], [annot (mk2 "a" (some [1])) 1 1]) := by
    rw [clusterFold]
    simp only [hstep1]
    rw [clusterFold]
  rw [performClustering, hf1]
  simp only [hfold, hf2]
  simp [addMissingStep]

theorem run_missing :
    performClustering (1 / 2 : ℝ) [mk2 "n" none, mk2 "m" none] =
      .ok [{ mk2 "n" none with clusterId := some 1,
                                clusteringError := some "No embedding available" },
           { mk2 "m" none with clusterId := some 2,
                               clusteringError := some "No embedding available" }] := by
  have hf1 : ([mk2 "n" none, mk2 "m" none].filter
      fun c => c.embedding.isSome) = [] := by simp [mk2]
  have hf2 : ([mk2 "n" none, mk2 "m" none].filter
      fun c => !c.embedding.isSome) = [mk2 "n" none, mk2 "m" none] := by
    simp [mk2]
  have hfold : clusterFold (1 / 2 : ℝ) ([], []) ([] : List (Comment Unit)) =
      .ok ([], []) := rfl
  rw [performClustering, hf1]
  simp only [hfold, hf2]
  simp [addMissingStep]

/-! ### Closed instances of the claims -/

theorem c1_single_link_chain_witness :
    ∃ y1 y2 y3,
      performClustering (3 / 5 : ℝ)
        [mk2 "a" (some [5, 0]), mk2 "b" (some [3, 4]), mk2 "c" (some [0, 5])] =
        .ok [y1, y2, y3] ∧
      y1.clusterId = some 1 ∧ y2.clusterId = some 1 ∧ y3.clusterId = some 1 :=
  c1_single_link_chain (3 / 5) (mk2 "a" (some [5, 0])) (mk2 "b" (some [3, 4]))
    (mk2 "c" (some [0, 5])) [5, 0] [3, 4] [0, 5] (3 / 5) (4 / 5) 0
    rfl rfl rfl (by norm_num) (by norm_num)
    cosineSimilarity_eval_ab (by norm_num)
    cosineSimilarity_eval_bc (by norm_num)
    cosineSimilarity_eval_ac (by norm_num)

theorem c2_first_fit_step_witness :
    (∃ cid s pre m post,
      cid ∈ ([] : List Nat) ∧
      (([] : List (Comment Unit)).filter (fun x => x.clusterId == some cid)) =
        pre ++ m :: post ∧
      (∀ x ∈ pre, ∃ ex sx, x.embedding = some ex ∧
        cosineSimilarity [1] ex = Except.ok sx ∧ sx < (1 / 2 : ℝ)) ∧
      (∃ em, m.embedding = some em ∧
        cosineSimilarity [1] em = Except.ok s ∧ (1 / 2 : ℝ) ≤ s) ∧
      (∀ cid' ∈ ([] : List Nat), cid' < cid →
        ∀ x ∈ (([] : List (Comment Unit)).filter
            (fun x => x.clusterId == some cid')),
          ∃ ex sx, x.embedding = some ex ∧
            cosineSimilarity [1] ex = Except.ok sx ∧ sx < (1 / 2 : ℝ)) ∧
      (([1], [annot (mk2 "a" (some [1])) 1 1]) :
          List Nat × List (Comment Unit)) =
        ([], [{ mk2 "a" (some [1]) with clusterId := some cid,
                                        similarityScore := some s }]))
    ∨ ((∀ cid ∈ ([] : List Nat),
          ∀ x ∈ (([] : List (Comment Unit)).filter
              (fun x => x.clusterId == some cid)),
            ∃ ex sx, x.embedding = some ex ∧
              cosineSimilarity [1] ex = Except.ok sx ∧ sx < (1 / 2 : ℝ)) ∧
       (([1], [annot (mk2 "a" (some [1])) 1 1]) :
           List Nat × List (Comment Unit)) =
         ([1], [annot (mk2 "a" (some [1])) 1 1])) :=
  c2_first_fit_step (1 / 2) [] [] (mk2 "a" (some [1])) [1]
    ([1], [annot (mk2 "a" (some [1])) 1 1]) rfl
    (by
      rw [clusterStep]
      simp only [show (mk2 "a" (some [1])).embedding = some [1] from rfl,
        List.length_nil, List.range'_zero, findFirstCluster]
      simp [annot, mk2])

theorem c3_idempotent_witness :
    performClustering (1 / 2 : ℝ) [annot (mk2 "a" (some [1])) 1 1] =
      .ok [annot (mk2 "a" (some [1])) 1 1] :=
  c3_idempotent (1 / 2) [mk2 "a" (some [1])] [annot (mk2 "a" (some [1])) 1 1]
    run_single

theorem c4_output_structure_witness :
    ([annot (mk2 "a" (some [1])) 1 1,
      { mk2 "n" none with clusterId := some 2,
                          clusteringError := some "No embedding available" }].map
        (fun c => (c.id, c.text, c.embedding)) =
      (([mk2 "a" (some [1]), mk2 "n" none].filter
          fun c => c.embedding.isSome) ++
        ([mk2 "a" (some [1]), mk2 "n" none].filter
          fun c => !c.embedding.isSome)).map
            (fun c => (c.id, c.text, c.embedding))) ∧
    (∀ y ∈ [annot (mk2 "a" (some [1])) 1 1,
      { mk2 "n" none with clusterId := some 2,
                          clusteringError := some "No embedding available" }],
      y.clusterId.isSome = true) ∧
    ∃ k, firsts ([annot (mk2 "a" (some [1])) 1 1,
      { mk2 "n" none with clusterId := some 2,
                          clusteringError := some "No embedding available" }].map
        fun c => c.clusterId) = (List.range' 1 k).map some :=
  c4_output_structure (1 / 2) [mk2 "a" (some [1]), mk2 "n" none] _ run_mixed

theorem c5_missing_embeddings_witness :
    ∃ k out1 out2,
      [{ mk2 "n" none with clusterId := some 1,
                           clusteringError := some "No embedding available" },
       { mk2 "m" none with clusterId := some 2,
                           clusteringError := some "No embedding available" }] =
        out1 ++ out2 ∧
      (∀ y ∈ out1, y.embedding.isSome = true ∧
        ∃ c, y.clusterId = some c ∧ 1 ≤ c ∧ c ≤ k) ∧
      out2.length = ([mk2 "n" none, mk2 "m" none].filter
        fun c => !c.embedding.isSome).length ∧
      (∀ i (hi : i < out2.length)
         (hi' : i < ([mk2 "n" none, mk2 "m" none].filter
           fun c => !c.embedding.isSome).length),
        (out2.get ⟨i, hi⟩).clusterId = some (k + 1 + i) ∧
        (out2.get ⟨i, hi⟩).clusteringError = some "No embedding available" ∧
        (out2.get ⟨i, hi⟩).similarityScore = none ∧
        (out2.get ⟨i, hi⟩).id =
          (([mk2 "n" none, mk2 "m" none].filter
            fun c => !c.embedding.isSome).get ⟨i, hi'⟩).id ∧
        ([{ mk2 "n" none with clusterId := some 1,
                              clusteringError := some "No embedding available" },
           { mk2 "m" none with clusterId := some 2,
                               clusteringError := some "No embedding available" }].filter
          fun y => y.clusterId == some (k + 1 + i)).length = 1) :=
  c5_missing_embeddings (1 / 2) [mk2 "n" none, mk2 "m" none] _
    (by simp [mk2]) run_missing

theorem c6_cosine_formula_witness :
    (cosineSimilarity [(1 : ℝ), 0] [0, 1] =
      .ok (if ([(1 : ℝ), 0].map fun x => x * x).sum = 0 ∨
            ([(0 : ℝ), 1].map fun x => x * x).sum = 0
        then 0
        else (List.zipWith (fun x y => x * y) [(1 : ℝ), 0] [0, 1]).sum /
          (Real.sqrt (([(1 : ℝ), 0].map fun x => x * x).sum) *
            Real.sqrt (([(0 : ℝ), 1].map fun x => x * x).sum)))) ∧
    cosineSimilarity [(1 : ℝ), 0] [0, 1] = cosineSimilarity [0, 1] [(1 : ℝ), 0] ∧
    (([(1 : ℝ), 0].map fun x => x * x).sum ≠ 0 →
      cosineSimilarity [(1 : ℝ), 0] [(1 : ℝ), 0] = .ok 1) :=
  c6_cosine_formula [1, 0] [0, 1] rfl

theorem c7_dimension_mismatch_witness :
    cosineSimilarity [(1 : ℝ)] [1, 2] =
      .error "Vectors must have the same length" ∧
    (∃ v, cosineSimilarity [(1 : ℝ), 2] [3, 4] = .ok v) ∧
    (∃ ys, performClustering (1 / 2 : ℝ) [mk2 "a" (some [1])] = .ok ys) :=
  ⟨c7_dimension_mismatch.1 [1] [1, 2] (by simp),
   c7_dimension_mismatch.2.1 [1, 2] [3, 4] rfl,
   c7_dimension_mismatch.2.2 Unit (1 / 2) [mk2 "a" (some [1])] 1 (by simp [mk2])⟩

theorem c8_scores_in_unit_interval_witness :
    0 ≤ (1 : ℝ) ∧ (1 : ℝ) ≤ 1 :=
  c8_scores_in_unit_interval (1 / 2)
    [mk2 "a" (some [1]), mk2 "b" (some [1])]
    [annot (mk2 "a" (some [1])) 1 1, annot (mk2 "b" (some [1])) 1 1]
    (by norm_num) (by norm_num) (by simp [mk2]) run_pair
    (annot (mk2 "b" (some [1])) 1 1) (by simp) 1 rfl

theorem c9_scores_meet_threshold_witness :
    ∃ s, (annot (mk2 "b" (some [1])) 1 1).similarityScore = some s ∧
      (1 / 2 : ℝ) ≤ s ∧
      (s = 1 ∨ ∃ m, m ∈ [annot (mk2 "a" (some [1])) 1 1,
          annot (mk2 "b" (some [1])) 1 1] ∧
        m.clusterId = (annot (mk2 "b" (some [1])) 1 1).clusterId ∧
        ∃ e em, (annot (mk2 "b" (some [1])) 1 1).embedding = some e ∧
          m.embedding = some em ∧ cosineSimilarity e em = Except.ok s) :=
  c9_scores_meet_threshold (1 / 2) (by norm_num)
    [mk2 "a" (some [1]), mk2 "b" (some [1])]
    [annot (mk2 "a" (some [1])) 1 1, annot (mk2 "b" (some [1])) 1 1] run_pair
    (annot (mk2 "b" (some [1])) 1 1) (by simp) rfl

theorem c10_fields_preserved_witness :
    [annot (mk2 "a" (some [1])) 1 1,
     { mk2 "n" none with clusterId := some 2,
                         clusteringError := some "No embedding available" }].map
      (fun c => (c.id, c.text, c.embedding, c.meta)) =
      (([mk2 "a" (some [1]), mk2 "n" none].filter
          fun c => c.embedding.isSome) ++
        ([mk2 "a" (some [1]), mk2 "n" none].filter
          fun c => !c.embedding.isSome)).map
            (fun c => (c.id, c.text, c.embedding, c.meta)) :=
  c10_fields_preserved (1 / 2) [mk2 "a" (some [1]), mk2 "n" none] _ run_mixed

end Clustering
